import Mathlib

/-!
# Verification of the forex analysis core

A shallow embedding of the indicator library, structure detectors and
composite-scoring logic of `src/forex-analysis.js`, together with proofs of
the behavioural properties claimed for them.

Conventions of the embedding:
* JavaScript numbers are modelled by `ℚ` (all analysed code paths perform
  exact field arithmetic on finite inputs; division by zero yields `0` in
  `ℚ`, which agrees with the analysed guards because every division in the
  verified statements is either guarded or appears under a hypothesis).
* JavaScript arrays are `List`s; `arr.slice(-k)` is `List.drop (length - k)`
  (they agree for `1 ≤ k`, the only use in the source).
* JavaScript string tags stay `String`s.
* Imperative `for`-loop accumulation is expressed as `map`/`filter`/`foldl`
  over the same index ranges the loops traverse.
-/

/-- One OHLC candle (`time` is abstracted to a natural number; `opn` models
the JS field `open`, which is a reserved word in Lean; `volume` is omitted
since no analysed function reads it). -/
structure Candle where
  time : ℕ
  opn : ℚ
  high : ℚ
  low : ℚ
  close : ℚ
deriving DecidableEq

/-- Total indexing into a candle list; every analysed access is within the
bounds the JS code iterates over, so the default is never observed there. -/
def cAt (candles : List Candle) (i : ℕ) : Candle :=
  candles.getD i ⟨0, 0, 0, 0, 0⟩

/-- `calculateSMA` (src/forex-analysis.js:318-325): for each
`i = period-1 … data.length-1` push the mean of `data.slice(i-period+1, i+1)`. -/
def calculateSMA (data : List ℚ) (period : ℕ) : List ℚ :=
  (List.range' (period - 1) (data.length - (period - 1))).map (fun i =>
    ((data.drop (i + 1 - period)).take period).sum / period)

/-- The `for`-loop of `calculateEMA`: each new value is
`x * k + previous * (1 - k)`, the previous value being the last one pushed. -/
def emaAux (k : ℚ) : ℚ → List ℚ → List ℚ
  | _, [] => []
  | prev, x :: xs =>
    let e := x * k + prev * (1 - k)
    e :: emaAux k e xs

/-- `calculateEMA` (src/forex-analysis.js:327-336): empty when
`data.length < period`; otherwise seeded with the SMA of the first `period`
values and smoothed with `k = 2/(period+1)`. -/
def calculateEMA (data : List ℚ) (period : ℕ) : List ℚ :=
  if data.length < period then []
  else
    let k : ℚ := 2 / (period + 1)
    let seed := (data.take period).sum / period
    seed :: emaAux k seed (data.drop period)

/-- The `changes` array of `calculateRSI`: consecutive close-to-close deltas. -/
def closeChanges (candles : List Candle) : List ℚ :=
  List.zipWith (fun a b => b.close - a.close) candles candles.tail

/-- `calculateRSI` (src/forex-analysis.js:338-356): empty when fewer than
`period+1` candles; otherwise a simple rolling mean of gains and losses over
each window of `period` deltas, with the `losses == 0 → rs = 100` convention. -/
def calculateRSI (candles : List Candle) (period : ℕ) : List ℚ :=
  if candles.length < period + 1 then []
  else
    let changes := closeChanges candles
    (List.range' (period - 1) (changes.length - (period - 1))).map (fun i =>
      let slice := (changes.drop (i + 1 - period)).take period
      let gains := (slice.filter (fun c => decide (0 < c))).sum / period
      let losses := |(slice.filter (fun c => decide (c < 0))).sum| / period
      let rs := if losses = 0 then (100 : ℚ) else gains / losses
      100 - 100 / (1 + rs))

/-- Result record of `calculateMACD`. -/
structure MACDResult where
  macd : List ℚ
  signal : List ℚ
  histogram : List ℚ
deriving DecidableEq

/-- `calculateMACD` (src/forex-analysis.js:358-381): the MACD line drops the
first `26 - 12 = 14` values of the 12-period EMA before subtracting the
26-period EMA; the signal line is a 9-period EMA of the MACD line; the
histogram subtracts the signal from the MACD line after dropping the MACD
line's leading `macd.length - signal.length` values. -/
def calculateMACD (candles : List Candle) : MACDResult :=
  let closes := candles.map (fun c => c.close)
  let ema12 := calculateEMA closes 12
  let ema26 := calculateEMA closes 26
  if ema12.length = 0 ∨ ema26.length = 0 then ⟨[], [], []⟩
  else
    let startIndex : ℕ := 26 - 12
    let macdLine := (List.range (ema12.length - startIndex)).map (fun i =>
      ema12.getD (i + startIndex) 0 - ema26.getD i 0)
    let signalLine := calculateEMA macdLine 9
    let offset := macdLine.length - signalLine.length
    let histogram := (List.range signalLine.length).map (fun i =>
      macdLine.getD (i + offset) 0 - signalLine.getD i 0)
    ⟨macdLine, signalLine, histogram⟩

/-- Result record of `calculateATR`. -/
structure ATRResult where
  current : ℚ
  values : List ℚ
deriving DecidableEq

/-- The `tr` array of `calculateATR`: true range of each candle after the
first, `max(high-low, |high-prevClose|, |low-prevClose|)`. -/
def trueRanges (candles : List Candle) : List ℚ :=
  List.zipWith (fun a b => max (b.high - b.low) (max |b.high - a.close| |b.low - a.close|))
    candles candles.tail

/-- `calculateATR` (src/forex-analysis.js:383-404): `{current: 0, values: []}`
when fewer than `period+1` candles; otherwise a simple rolling mean of the
true ranges, `current` being the last value (`|| 0`). -/
def calculateATR (candles : List Candle) (period : ℕ) : ATRResult :=
  if candles.length < period + 1 then ⟨0, []⟩
  else
    let tr := trueRanges candles
    let atrValues := (List.range' (period - 1) (tr.length - (period - 1))).map (fun i =>
      ((tr.drop (i + 1 - period)).take period).sum / period)
    ⟨(atrValues.getLast?).getD 0, atrValues⟩

/-- A swing point as pushed by `identifySwingPoints`. -/
structure Swing where
  type : String
  index : ℕ
  price : ℚ
  time : ℕ
deriving DecidableEq

/-- The inner-loop decision of `identifySwingPoints` for highs: index `i` is a
swing high iff for every offset `j ∈ [1, lookback]` both neighbours' highs are
strictly below `candles[i].high`. -/
def isSwingHigh (candles : List Candle) (lookback i : ℕ) : Bool :=
  (List.range' 1 lookback).all (fun j =>
    decide ((cAt candles (i - j)).high < (cAt candles i).high) &&
    decide ((cAt candles (i + j)).high < (cAt candles i).high))

/-- The inner-loop decision of `identifySwingPoints` for lows (strict on both
sides, mirrored). -/
def isSwingLow (candles : List Candle) (lookback i : ℕ) : Bool :=
  (List.range' 1 lookback).all (fun j =>
    decide ((cAt candles i).low < (cAt candles (i - j)).low) &&
    decide ((cAt candles i).low < (cAt candles (i + j)).low))

/-- The swings pushed for one index `i` of the outer loop of
`identifySwingPoints` (a high entry, then a low entry, each conditional). -/
def swingEntriesAt (candles : List Candle) (lookback i : ℕ) : List Swing :=
  (if isSwingHigh candles lookback i then
    [⟨"high", i, (cAt candles i).high, (cAt candles i).time⟩] else []) ++
  (if isSwingLow candles lookback i then
    [⟨"low", i, (cAt candles i).low, (cAt candles i).time⟩] else [])

/-- `identifySwingPoints` (src/forex-analysis.js:442-476): scan
`i = lookback … candles.length - lookback - 1` in order, pushing the entries
of `swingEntriesAt`. -/
def identifySwingPoints (candles : List Candle) (lookback : ℕ) : List Swing :=
  (List.range' lookback (candles.length - lookback - lookback)).flatMap
    (swingEntriesAt candles lookback)

/-- Result record of `identifyTrendStructure`; `struct` models the JS field
`structure` (a reserved word in Lean). -/
structure TrendStructureResult where
  struct : String
  higherHighs : ℕ
  lowerHighs : ℕ
  higherLows : ℕ
  lowerLows : ℕ
  recentHigh : Option ℚ
  recentLow : Option ℚ
deriving DecidableEq

/-- `identifyTrendStructure` (src/forex-analysis.js:478-508): over the last 10
swings, count consecutive higher/lower highs and lows and classify the trend.
(The JS function also receives `candles` but never reads it.) -/
def identifyTrendStructure (candles : List Candle) (swings : List Swing) :
    TrendStructureResult :=
  let recentSwings := swings.drop (swings.length - 10)
  let highs := recentSwings.filter (fun s => s.type == "high")
  let lows := recentSwings.filter (fun s => s.type == "low")
  let hPairs := highs.zip highs.tail
  let lPairs := lows.zip lows.tail
  let higherHighs := (hPairs.filter (fun p => decide (p.1.price < p.2.price))).length
  let lowerHighs := (hPairs.filter (fun p => decide (p.2.price ≤ p.1.price))).length
  let higherLows := (lPairs.filter (fun p => decide (p.1.price < p.2.price))).length
  let lowerLows := (lPairs.filter (fun p => decide (p.2.price ≤ p.1.price))).length
  let trend :=
    if lowerHighs < higherHighs ∧ lowerLows < higherLows then "uptrend"
    else if higherHighs < lowerHighs ∧ higherLows < lowerLows then "downtrend"
    else "ranging"
  ⟨trend, higherHighs, lowerHighs, higherLows, lowerLows,
    (highs.getLast?).map (fun s => s.price), (lows.getLast?).map (fun s => s.price)⟩

/-- One clustering cell of `identifySupportResistance`: running centroid and
touch count. -/
structure Cluster where
  price : ℚ
  touches : ℕ
deriving DecidableEq

/-- The inner cluster-merge loop of `identifySupportResistance`: scan the
clusters in order; the first one whose centroid is within `tolerance` of `p`
absorbs `p` (touch count incremented, centroid updated to the running mean);
otherwise a fresh cluster `{price: p, touches: 1}` is appended. -/
def insertIntoClusters (tolerance : ℚ) : List Cluster → ℚ → List Cluster
  | [], p => [⟨p, 1⟩]
  | c :: rest, p =>
    if |p - c.price| < tolerance then
      ⟨(c.price * c.touches + p) / (c.touches + 1), c.touches + 1⟩ :: rest
    else c :: insertIntoClusters tolerance rest p

/-- The full single-pass greedy clustering of `identifySupportResistance` over
the swing prices in time order. -/
def buildClusters (prices : List ℚ) (tolerance : ℚ) : List Cluster :=
  prices.foldl (insertIntoClusters tolerance) []

/-- A support/resistance level as returned by `identifySupportResistance`. -/
structure Level where
  type : String
  price : ℚ
  strength : ℕ
  distance : ℚ
  distanceATR : ℚ
deriving DecidableEq

/-- The comparator `(a, b) => a.distance - b.distance` passed to the JS sort:
ascending by distance. -/
def levelDistLE (a b : Level) : Prop := a.distance ≤ b.distance

instance : DecidableRel levelDistLE := fun a b =>
  inferInstanceAs (Decidable (a.distance ≤ b.distance))

instance : IsTotal Level levelDistLE := ⟨fun a b => le_total a.distance b.distance⟩

instance : IsTrans Level levelDistLE := ⟨fun _ _ _ h h' => le_trans h h'⟩

/-- `identifySupportResistance` (src/forex-analysis.js:510-546): cluster swing
prices with tolerance `0.5 * atr`, keep clusters touched at least twice,
classify against the current price, sort ascending by distance and keep the
nearest 5. -/
def identifySupportResistance (swings : List Swing) (currentPrice atr : ℚ) :
    List Level :=
  let tolerance := atr * (1 / 2)
  let clusters := buildClusters (swings.map (fun s => s.price)) tolerance
  let levels := (clusters.filter (fun c => decide (2 ≤ c.touches))).map (fun c =>
    let distance := |currentPrice - c.price|
    ({ type := if currentPrice < c.price then "resistance" else "support",
       price := c.price, strength := c.touches,
       distance := distance, distanceATR := distance / atr } : Level))
  (List.insertionSort levelDistLE levels).take 5

/-- Result record of `analyzeOrderFlow`. -/
structure OrderFlowResult where
  buying : ℚ
  selling : ℚ
  net : ℚ
  bias : String
  strength : ℚ
  signal : String
deriving DecidableEq

/-- The `buyingPressure` accumulator of `analyzeOrderFlow`: body sizes of
bullish candles whose body exceeds 0.6 of their range. -/
def buyingPressureOf (candles : List Candle) (lookback : ℕ) : ℚ :=
  ((candles.drop (candles.length - lookback)).map (fun c =>
    if c.opn < c.close ∧ (6 : ℚ) / 10 < |c.close - c.opn| / (c.high - c.low) then
      |c.close - c.opn| else 0)).sum

/-- The `sellingPressure` accumulator of `analyzeOrderFlow`. -/
def sellingPressureOf (candles : List Candle) (lookback : ℕ) : ℚ :=
  ((candles.drop (candles.length - lookback)).map (fun c =>
    if c.close < c.opn ∧ (6 : ℚ) / 10 < |c.close - c.opn| / (c.high - c.low) then
      |c.close - c.opn| else 0)).sum

/-- The `pressureRatio` of `analyzeOrderFlow`: `net/total` when the total
pressure is positive, `0` otherwise. -/
def pressureRatioOf (candles : List Candle) (lookback : ℕ) : ℚ :=
  let b := buyingPressureOf candles lookback
  let s := sellingPressureOf candles lookback
  if 0 < b + s then (b - s) / (b + s) else 0

/-- `analyzeOrderFlow` (src/forex-analysis.js:30-63). -/
def analyzeOrderFlow (candles : List Candle) (lookback : ℕ) : OrderFlowResult :=
  let b := buyingPressureOf candles lookback
  let s := sellingPressureOf candles lookback
  let r := pressureRatioOf candles lookback
  ⟨b, s, b - s,
    if (3 : ℚ) / 10 < r then "bullish" else if r < -(3 : ℚ) / 10 then "bearish" else "neutral",
    |r|,
    if (1 : ℚ) / 2 < r then "strong_buy" else if r < -(1 : ℚ) / 2 then "strong_sell" else "neutral"⟩

/-- Result record of `analyzeLevelStrength`.  The early (no-level) return of
the JS function omits the `atLevel`, `distanceATR`, `price`, `testing` and
`signal` fields; within the analysed program an absent (`undefined`) field is
only ever used in boolean tests and `===`-comparisons against non-empty
strings, where it behaves exactly like `false` / a non-matching tag, so the
embedding fixes `atLevel := false`, `testing := false` and `signal := "none"`
there. `distance`, `distanceATR`, `type` and `price` are `Option`s, `none`
modelling JS `null`/`undefined`. -/
structure LevelStrengthResult where
  nearLevel : Bool
  atLevel : Bool
  distance : Option ℚ
  distanceATR : Option ℚ
  strength : ℕ
  type : Option String
  price : Option ℚ
  testing : Bool
  signal : String
deriving DecidableEq

/-- `analyzeLevelStrength` (src/forex-analysis.js:156-197): inspect the level
nearest to the current price (the head of `identifySupportResistance`'s sorted
output), or return the early no-level record when there is none. -/
def analyzeLevelStrength (candles : List Candle) (swings : List Swing)
    (currentPrice atr : ℚ) : LevelStrengthResult :=
  let levels := identifySupportResistance swings currentPrice atr
  match levels with
  | [] => ⟨false, false, none, none, 0, none, none, false, "none"⟩
  | nearest :: _ =>
    let distanceATR := |currentPrice - nearest.price| / atr
    let approaching := decide (distanceATR < 1 / 2)
    let atLevel := decide (distanceATR < 1 / 5)
    let last5 := candles.drop (candles.length - 5)
    let testing := last5.any (fun c =>
      let cRange := c.high - c.low
      (nearest.type == "support" && decide (c.low ≤ nearest.price + cRange * (3 / 10))) ||
      (nearest.type == "resistance" && decide (nearest.price - cRange * (3 / 10) ≤ c.high)))
    ⟨approaching, atLevel, some |currentPrice - nearest.price|, some distanceATR,
      nearest.strength, some nearest.type, some nearest.price, testing,
      if atLevel && nearest.type == "support" then "potential_bounce"
      else if atLevel && nearest.type == "resistance" then "potential_rejection"
      else "none"⟩

/-- The two level-approach contributions of the entry score
(src/forex-analysis.js:600-601): `+10` for a potential bounce, `-10` for a
potential rejection. -/
def levelScoreContribution (ls : LevelStrengthResult) : ℚ :=
  (if ls.signal = "potential_bounce" then 10 else 0) +
  (if ls.signal = "potential_rejection" then -10 else 0)

/-- The `entryType` selection of `performEnhancedAnalysis`
(src/forex-analysis.js:672-674), parameterised by `momentumShift.earlySignal`. -/
def entryTypeOf (ls : LevelStrengthResult) (earlySignal : Bool) : String :=
  if ls.atLevel then "IMMEDIATE"
  else if ls.nearLevel then "WAIT_FOR_LEVEL"
  else if earlySignal then "EARLY_ENTRY"
  else "WAIT_FOR_SETUP"

/-- The `bias` mapping of the trading signal (src/forex-analysis.js:665). -/
def tradingBias (score : ℚ) : String :=
  if 60 < score then "BULLISH" else if score < 40 then "BEARISH" else "NEUTRAL"

/-- The `strength` mapping of the trading signal (src/forex-analysis.js:666-667). -/
def tradingStrength (score : ℚ) : String :=
  if 70 < score ∨ score < 30 then "STRONG"
  else if 60 < score ∨ score < 40 then "MODERATE"
  else "WEAK"

/-- The `recommendation` mapping of the trading signal
(src/forex-analysis.js:668-669). -/
def tradingRecommendation (score : ℚ) : String :=
  if 65 < score then "BUY" else if score < 35 then "SELL" else "WAIT"

/-- The `confidence` mapping of the trading signal (src/forex-analysis.js:670). -/
def tradingConfidence (score : ℚ) : ℚ :=
  |score - 50| / 50 * 100

/-- A 15-candle strictly rising series (close = 1 … 15), enough for one
default-period RSI window. -/
def upCandles : List Candle :=
  (List.range 15).map (fun i => ⟨i, (i : ℚ) + 1, (i : ℚ) + 1, (i : ℚ) + 1, (i : ℚ) + 1⟩)

/-- The synthetic 60-candle uptrending series of the end-to-end scenario:
every candle's open/high/low/close is the previous candle's shifted up by
exactly 1.0, with a constant (ATR-consistent) range of 3. -/
def cex60 : List Candle :=
  (List.range 60).map (fun i => ⟨i, 101 + i, 103 + i, 100 + i, 102 + i⟩)

/-- A 31-candle series whose maximal high 10 occurs at the two candles 7 and
28 (farther apart than the lookback) and whose other highs are all 1. -/
def cexPlateau : List Candle :=
  (List.range 31).map (fun i =>
    if i = 7 ∨ i = 28 then ⟨i, 1, 10, 1, 1⟩ else ⟨i, 1, 1, 1, 1⟩)

/-- An 11-candle series with a unique global maximum high 10 at index 5 and a
flat run of equal highs elsewhere (indices 6 and 7 tie at 3). -/
def wC3 : List Candle :=
  [⟨0, 1, 1, 1, 1⟩, ⟨1, 1, 1, 1, 1⟩, ⟨2, 1, 1, 1, 1⟩, ⟨3, 1, 1, 1, 1⟩,
   ⟨4, 1, 1, 1, 1⟩, ⟨5, 1, 10, 1, 1⟩, ⟨6, 1, 3, 1, 1⟩, ⟨7, 1, 3, 1, 1⟩,
   ⟨8, 1, 1, 1, 1⟩, ⟨9, 1, 1, 1, 1⟩, ⟨10, 1, 1, 1, 1⟩]

/-- The cluster invariant: a cluster's touch count is the number of swing
prices merged into it (a non-empty subsequence of the already-processed
prices, in order) and its centroid is their running mean. -/
def ClusterInv (L : List ℚ) (c : Cluster) : Prop :=
  ∃ ps : List ℚ, ps ≠ [] ∧ List.Sublist ps L ∧
    c.touches = ps.length ∧ c.price = ps.sum / ps.length

/-- A three-swing list whose first two prices cluster together (within the
tolerance 0.5) and whose third starts its own singleton cluster. -/
def wSwings : List Swing :=
  [⟨"high", 5, 10, 5⟩, ⟨"low", 11, 10, 11⟩, ⟨"high", 17, 20, 17⟩]

/-- C8: every indicator returns an empty result, without any failure, when the
input is shorter than its minimum window: `calculateSMA` and `calculateEMA`
with fewer than `period` values return `[]`, `calculateRSI` with fewer than
`period+1` candles returns `[]`, and `calculateATR` with fewer than `period+1`
candles returns `{current: 0, values: []}`. -/
theorem insufficient_data_empty_results (data : List ℚ) (candles : List Candle)
    (period : ℕ) (hd : data.length < period) (hc : candles.length < period + 1) :
    calculateSMA data period = [] ∧ calculateEMA data period = [] ∧
    calculateRSI candles period = [] ∧ calculateATR candles period = ⟨0, []⟩ := by
  refine ⟨?_, ?_, ?_, ?_⟩
  · unfold calculateSMA
    have h0 : data.length - (period - 1) = 0 := by omega
    rw [h0]
    rfl
  · unfold calculateEMA
    rw [if_pos hd]
  · unfold calculateRSI
    rw [if_pos hc]
  · unfold calculateATR
    rw [if_pos hc]

/-- Witness for `insufficient_data_empty_results` at a concrete short input. -/
theorem insufficient_data_empty_results_witness :
    ([(1 : ℚ)].length < 2 ∧ ([⟨0, 1, 2, 0, 1⟩] : List Candle).length < 2 + 1) ∧
    calculateSMA [(1 : ℚ)] 2 = [] ∧ calculateEMA [(1 : ℚ)] 2 = [] ∧
    calculateRSI [⟨0, 1, 2, 0, 1⟩] 2 = [] ∧ calculateATR [⟨0, 1, 2, 0, 1⟩] 2 = ⟨0, []⟩ :=
  ⟨⟨by decide, by decide⟩,
    insufficient_data_empty_results [(1 : ℚ)] [⟨0, 1, 2, 0, 1⟩] 2 (by decide) (by decide)⟩

/-- The EMA recurrence is constant on a constant tail when started at that
constant. -/
theorem emaAux_replicate (k v : ℚ) (m : ℕ) :
    emaAux k v (List.replicate m v) = List.replicate m v := by
  induction m with
  | zero => rfl
  | succ m ih =>
    have h : v * k + v * (1 - k) = v := by ring
    simp only [List.replicate_succ, emaAux, h, ih]

/-- C7: on a constant series of value `v` of length at least `period`
(`period > 0`), every SMA output and every EMA output is exactly `v`. -/
theorem sma_ema_constant_series (v : ℚ) (period n : ℕ)
    (hp : 0 < period) (hn : period ≤ n) :
    (∀ x ∈ calculateSMA (List.replicate n v) period, x = v) ∧
    (∀ x ∈ calculateEMA (List.replicate n v) period, x = v) := by
  have hper : ((period : ℚ)) ≠ 0 := Nat.cast_ne_zero.mpr (by omega)
  have hseed : ∀ m : ℕ, period ≤ m →
      ((List.replicate m v).take period).sum / (period : ℚ) = v := by
    intro m hm
    rw [List.take_replicate, min_eq_left hm, List.sum_replicate, nsmul_eq_mul,
      mul_div_cancel_left₀ v hper]
  constructor
  · intro x hx
    simp only [calculateSMA, List.length_replicate] at hx
    obtain ⟨i, hi, rfl⟩ := List.mem_map.1 hx
    rw [List.mem_range'_1] at hi
    rw [List.drop_replicate]
    exact hseed _ (by omega)
  · intro x hx
    unfold calculateEMA at hx
    rw [if_neg (by rw [List.length_replicate]; omega)] at hx
    simp only [List.drop_replicate, hseed n hn, emaAux_replicate] at hx
    rcases List.mem_cons.1 hx with h | h
    · exact h
    · exact List.eq_of_mem_replicate h

/-- Witness for `sma_ema_constant_series`: constant series of value 7,
period 3, length 5. -/
theorem sma_ema_constant_series_witness :
    (0 < 3 ∧ 3 ≤ 5) ∧ (∀ x ∈ calculateSMA (List.replicate 5 (7 : ℚ)) 3, x = 7) :=
  ⟨⟨by decide, by decide⟩, (sma_ema_constant_series 7 3 5 (by decide) (by decide)).1⟩

/-- C5: the composite mapping uses strict inequalities — a score of exactly 65
maps to WAIT (BUY requires score > 65), a score of exactly 60 maps to NEUTRAL
(BULLISH requires score > 60), BEARISH requires score < 40, SELL requires
score < 35, and confidence is `|score - 50| / 50 * 100`. -/
theorem trading_signal_strict_boundaries :
    tradingRecommendation 65 = "WAIT" ∧ tradingBias 60 = "NEUTRAL" ∧
    (∀ s : ℚ, (tradingRecommendation s = "BUY" ↔ 65 < s) ∧
      (tradingRecommendation s = "SELL" ↔ s < 35) ∧
      (tradingBias s = "BULLISH" ↔ 60 < s) ∧
      (tradingBias s = "BEARISH" ↔ s < 40) ∧
      tradingConfidence s = |s - 50| / 50 * 100) := by
  refine ⟨by norm_num [tradingRecommendation], by norm_num [tradingBias], fun s => ?_⟩
  refine ⟨?_, ?_, ?_, ?_, rfl⟩
  · unfold tradingRecommendation
    split_ifs with h1 h2
    · exact iff_of_true rfl h1
    · exact iff_of_false (by decide) h1
    · exact iff_of_false (by decide) h1
  · unfold tradingRecommendation
    split_ifs with h1 h2
    · exact iff_of_false (by decide) (by linarith)
    · exact iff_of_true rfl h2
    · exact iff_of_false (by decide) h2
  · unfold tradingBias
    split_ifs with h1 h2
    · exact iff_of_true rfl h1
    · exact iff_of_false (by decide) h1
    · exact iff_of_false (by decide) h1
  · unfold tradingBias
    split_ifs with h1 h2
    · exact iff_of_false (by decide) (by linarith)
    · exact iff_of_true rfl h2
    · exact iff_of_false (by decide) h2

/-- C10: when the clustering yields no level at all, `analyzeLevelStrength`
returns the early no-level record (`nearLevel = false`, `strength = 0`,
`distance = null`, `type = null`, no at-level flag and no bounce/rejection
signal), the scorer's level contribution is `0`, and the entry type falls
through to EARLY_ENTRY or WAIT_FOR_SETUP — never IMMEDIATE or WAIT_FOR_LEVEL. -/
theorem no_level_early_result (candles : List Candle) (swings : List Swing)
    (currentPrice atr : ℚ) (earlySignal : Bool)
    (h : identifySupportResistance swings currentPrice atr = []) :
    analyzeLevelStrength candles swings currentPrice atr =
      ⟨false, false, none, none, 0, none, none, false, "none"⟩ ∧
    levelScoreContribution (analyzeLevelStrength candles swings currentPrice atr) = 0 ∧
    entryTypeOf (analyzeLevelStrength candles swings currentPrice atr) earlySignal ≠
      "IMMEDIATE" ∧
    entryTypeOf (analyzeLevelStrength candles swings currentPrice atr) earlySignal ≠
      "WAIT_FOR_LEVEL" ∧
    entryTypeOf (analyzeLevelStrength candles swings currentPrice atr) earlySignal =
      (if earlySignal then "EARLY_ENTRY" else "WAIT_FOR_SETUP") := by
  have hls : analyzeLevelStrength candles swings currentPrice atr =
      ⟨false, false, none, none, 0, none, none, false, "none"⟩ := by
    unfold analyzeLevelStrength
    rw [h]
  refine ⟨hls, ?_, ?_, ?_, ?_⟩ <;> rw [hls]
  · simp [levelScoreContribution]
  · cases earlySignal <;> decide
  · cases earlySignal <;> decide
  · cases earlySignal <;> decide

/-- Witness for `no_level_early_result`: an empty swing list clusters to no
level at all. -/
theorem no_level_early_result_witness :
    identifySupportResistance [] 1 1 = [] ∧
    analyzeLevelStrength [] [] 1 1 = ⟨false, false, none, none, 0, none, none, false, "none"⟩ :=
  ⟨by decide, (no_level_early_result [] [] 1 1 true (by decide)).1⟩

/-- C9: the internal pressure ratio of `analyzeOrderFlow` is `net/total` when
the total pressure is positive and `0` otherwise, always lies in `[-1, 1]`;
the returned `strength` is its absolute value and lies in `[0, 1]`; and the
returned `bias` and `signal` are always among their enumerated tags. -/
theorem order_flow_ratio_bounded (candles : List Candle) (lookback : ℕ) :
    pressureRatioOf candles lookback =
      (if 0 < buyingPressureOf candles lookback + sellingPressureOf candles lookback then
        (buyingPressureOf candles lookback - sellingPressureOf candles lookback) /
          (buyingPressureOf candles lookback + sellingPressureOf candles lookback)
      else 0) ∧
    -1 ≤ pressureRatioOf candles lookback ∧ pressureRatioOf candles lookback ≤ 1 ∧
    (analyzeOrderFlow candles lookback).strength = |pressureRatioOf candles lookback| ∧
    0 ≤ (analyzeOrderFlow candles lookback).strength ∧
    (analyzeOrderFlow candles lookback).strength ≤ 1 ∧
    (analyzeOrderFlow candles lookback).bias ∈ ["bullish", "bearish", "neutral"] ∧
    (analyzeOrderFlow candles lookback).signal ∈ ["strong_buy", "strong_sell", "neutral"] := by
  have hb : 0 ≤ buyingPressureOf candles lookback := by
    apply List.sum_nonneg
    intro x hx
    obtain ⟨c, _, rfl⟩ := List.mem_map.1 hx
    split
    · exact abs_nonneg _
    · exact le_refl 0
  have hs : 0 ≤ sellingPressureOf candles lookback := by
    apply List.sum_nonneg
    intro x hx
    obtain ⟨c, _, rfl⟩ := List.mem_map.1 hx
    split
    · exact abs_nonneg _
    · exact le_refl 0
  have hlow : -1 ≤ pressureRatioOf candles lookback := by
    simp only [pressureRatioOf]
    split
    · rename_i hpos
      rw [le_div_iff₀ hpos]
      linarith
    · norm_num
  have hhigh : pressureRatioOf candles lookback ≤ 1 := by
    simp only [pressureRatioOf]
    split
    · rename_i hpos
      rw [div_le_one hpos]
      linarith
    · norm_num
  have hstr : (analyzeOrderFlow candles lookback).strength =
      |pressureRatioOf candles lookback| := rfl
  refine ⟨rfl, hlow, hhigh, hstr, ?_, ?_, ?_, ?_⟩
  · rw [hstr]; exact abs_nonneg _
  · rw [hstr]; exact abs_le.mpr ⟨hlow, hhigh⟩
  · simp only [analyzeOrderFlow]
    split_ifs <;> simp
  · simp only [analyzeOrderFlow]
    split_ifs <;> simp

/-- Every close-to-close delta of a strictly increasing close series is
positive. -/
theorem closeChanges_pos (candles : List Candle)
    (hmono : List.Chain' (fun a b => a.close < b.close) candles) :
    ∀ y ∈ closeChanges candles, 0 < y := by
  intro y hy
  unfold closeChanges at hy
  rw [List.mem_iff_getElem] at hy
  obtain ⟨i, hi, heq⟩ := hy
  rw [List.getElem_zipWith, List.getElem_tail] at heq
  have hlt : i < candles.length - 1 := by
    have := List.length_zipWith
      (fun (a b : Candle) => b.close - a.close) candles candles.tail
    rw [this, List.length_tail] at hi
    omega
  have hstep := List.chain'_iff_get.1 hmono i hlt
  simp only [List.get_eq_getElem] at hstep
  rw [← heq]
  exact sub_pos.2 hstep

/-- C1: on a candle series whose closes are strictly monotonically increasing
and which is long enough for at least one RSI window, the RSI output is
non-empty and every value equals `100 - 100/(1+100)` — the `rs = 100`
convention forced by `losses = 0` — which is not `100`. -/
theorem rsi_strict_uptrend_value (candles : List Candle) (period : ℕ)
    (hp : 0 < period)
    (hmono : List.Chain' (fun a b => a.close < b.close) candles)
    (hlen : period + 1 ≤ candles.length) :
    calculateRSI candles period ≠ [] ∧
    ∀ x ∈ calculateRSI candles period, x = 100 - 100 / (1 + 100) ∧ x ≠ 100 := by
  have hclen : (closeChanges candles).length = candles.length - 1 := by
    unfold closeChanges
    rw [List.length_zipWith, List.length_tail]
    omega
  have hpos := closeChanges_pos candles hmono
  constructor
  · simp only [calculateRSI]
    rw [if_neg (by omega)]
    apply List.ne_nil_of_length_pos
    rw [List.length_map, List.length_range']
    omega
  · intro x hx
    simp only [calculateRSI] at hx
    rw [if_neg (by omega)] at hx
    obtain ⟨i, hi, rfl⟩ := List.mem_map.1 hx
    have hfil : (((closeChanges candles).drop (i + 1 - period)).take period).filter
        (fun c => decide (c < 0)) = [] := by
      rw [List.filter_eq_nil_iff]
      intro a ha
      have h0 : 0 < a :=
        hpos a (((List.take_sublist _ _).trans (List.drop_sublist _ _)).subset ha)
      simpa using le_of_lt h0
    refine ⟨by simp [hfil], by simp [hfil]; norm_num⟩

/-- Witness for `rsi_strict_uptrend_value` at the concrete series `upCandles`
with the default period 14. -/
theorem rsi_strict_uptrend_value_witness :
    (0 < 14 ∧ List.Chain' (fun a b => a.close < b.close) upCandles ∧
      14 + 1 ≤ upCandles.length) ∧
    calculateRSI upCandles 14 ≠ [] :=
  ⟨⟨by decide, by norm_num [upCandles, List.chain'_cons, List.range_succ],
      by norm_num [upCandles]⟩,
    (rsi_strict_uptrend_value upCandles 14 (by decide)
      (by norm_num [upCandles, List.chain'_cons, List.range_succ])
      (by norm_num [upCandles])).1⟩

/-- The EMA loop produces one output per remaining input. -/
theorem emaAux_length (k : ℚ) (prev : ℚ) (l : List ℚ) :
    (emaAux k prev l).length = l.length := by
  induction l generalizing prev with
  | nil => rfl
  | cons x xs ih => simp [emaAux, ih]

/-- Output length of `calculateEMA`: `data.length + 1 - period` in truncated
subtraction (`0` when the input is too short). -/
theorem calculateEMA_length (data : List ℚ) (period : ℕ) :
    (calculateEMA data period).length = data.length + 1 - period := by
  unfold calculateEMA
  split
  · rename_i h
    simp
    omega
  · rename_i h
    simp [emaAux_length]
    omega

/-- Reading a mapped range through `getD` below the bound evaluates the map. -/
theorem getD_map_range (n : ℕ) (f : ℕ → ℚ) (i : ℕ) (h : i < n) :
    ((List.range n).map f).getD i 0 = f i := by
  rw [List.getD_eq_getElem _ _ (by simpa using h), List.getElem_map, List.getElem_range]

/-- Reading a mapped range through `getD` at or above the bound yields the
default. -/
theorem getD_map_range_ge (n : ℕ) (f : ℕ → ℚ) (i : ℕ) (h : n ≤ i) :
    ((List.range n).map f).getD i 0 = 0 := by
  apply List.getD_eq_default
  simpa using h

/-- The histogram loop of `calculateMACD`, read through `getD`: at every index
it is the aligned MACD value minus the signal value (both sides default to 0
past the end). -/
theorem getD_histogram (M S : List ℚ) (i : ℕ) :
    ((List.range S.length).map
      (fun j => M.getD (j + (M.length - S.length)) 0 - S.getD j 0)).getD i 0 =
    M.getD (i + (M.length - S.length)) 0 - S.getD i 0 := by
  rcases lt_or_ge i S.length with h | h
  · exact getD_map_range _ _ _ h
  · rw [getD_map_range_ge _ _ _ h, List.getD_eq_default _ _ (by omega),
      List.getD_eq_default _ _ (by omega)]
    norm_num

/-- Zero-histogram characterisation: a histogram entry vanishes exactly where
the aligned MACD value equals the signal value. -/
theorem getD_histogram_zero_iff (M S : List ℚ) (i : ℕ) :
    (((List.range S.length).map
      (fun j => M.getD (j + (M.length - S.length)) 0 - S.getD j 0)).getD i 0 = 0 ↔
    M.getD (i + (M.length - S.length)) 0 = S.getD i 0) := by
  rw [getD_histogram, sub_eq_zero]

/-- The MACD-line loop of `calculateMACD`, read through `getD`: at every index
it is the 14-shifted 12-EMA minus the 26-EMA, provided the 26-EMA is exactly
14 shorter than the 12-EMA (as is the case for any input long enough to reach
this loop). -/
theorem getD_macdLine (e12 e26 : List ℚ) (h : e26.length = e12.length - 14)
    (i : ℕ) :
    ((List.range (e12.length - (26 - 12))).map
      (fun j => e12.getD (j + (26 - 12)) 0 - e26.getD j 0)).getD i 0 =
    e12.getD (i + (26 - 12)) 0 - e26.getD i 0 := by
  rcases lt_or_ge i (e12.length - (26 - 12)) with hlt | hge
  · exact getD_map_range _ _ _ hlt
  · rw [getD_map_range_ge _ _ _ hge, List.getD_eq_default _ _ (by omega),
      List.getD_eq_default _ _ (by omega)]
    norm_num

/-- C4: the MACD histogram has the same length as the signal line; the signal
line is the 9-period EMA of the MACD line; each histogram entry subtracts the
signal value from the MACD value aligned by the offset
`macd.length - signal.length` (read through `getD` with default 0, under
which the identities hold at every index); each MACD-line entry is the
`14`-shifted 12-period EMA minus the 26-period EMA (`14 = 26 - 12` dropped
leading values); and a histogram entry is zero exactly where the aligned
MACD value equals the signal value. -/
theorem macd_alignment (candles : List Candle) :
    (calculateMACD candles).histogram.length = (calculateMACD candles).signal.length ∧
    (calculateMACD candles).signal = calculateEMA (calculateMACD candles).macd 9 ∧
    (∀ i : ℕ, (calculateMACD candles).histogram.getD i 0 =
      (calculateMACD candles).macd.getD
        (i + ((calculateMACD candles).macd.length - (calculateMACD candles).signal.length)) 0 -
      (calculateMACD candles).signal.getD i 0) ∧
    (∀ i : ℕ, (calculateMACD candles).macd.getD i 0 =
      (calculateEMA (candles.map (fun c => c.close)) 12).getD (i + (26 - 12)) 0 -
      (calculateEMA (candles.map (fun c => c.close)) 26).getD i 0) ∧
    (∀ i : ℕ, ((calculateMACD candles).histogram.getD i 0 = 0 ↔
      (calculateMACD candles).macd.getD
        (i + ((calculateMACD candles).macd.length - (calculateMACD candles).signal.length)) 0 =
      (calculateMACD candles).signal.getD i 0)) := by
  have h12 := calculateEMA_length (candles.map (fun c => c.close)) 12
  have h26 := calculateEMA_length (candles.map (fun c => c.close)) 26
  simp only [calculateMACD]
  split
  · rename_i hzero
    have hboth : (calculateEMA (candles.map (fun c => c.close)) 12).length ≤ 14 ∧
        (calculateEMA (candles.map (fun c => c.close)) 26).length = 0 := by
      omega
    refine ⟨rfl, rfl, fun i => by simp, fun i => ?_, fun i => by simp⟩
    have hg12 : (calculateEMA (candles.map (fun c => c.close)) 12).getD (i + (26 - 12)) 0 = 0 :=
      List.getD_eq_default _ _ (by omega)
    have hg26 : (calculateEMA (candles.map (fun c => c.close)) 26).getD i 0 = 0 :=
      List.getD_eq_default _ _ (by omega)
    rw [hg12, hg26]
    simp
  · rename_i hne
    push_neg at hne
    obtain ⟨hne12, hne26⟩ := hne
    refine ⟨by simp, rfl, fun i => ?_, fun i => ?_, fun i => ?_⟩
    · exact getD_histogram _ _ i
    · exact getD_macdLine _ _ (by omega) i
    · exact getD_histogram_zero_iff _ _ i

/-- A `flatMap` over blocks that are all empty is empty. -/
theorem flatMap_nil_of_forall_nil {α β : Type} (l : List α) (f : α → List β)
    (h : ∀ x ∈ l, f x = []) : l.flatMap f = [] := by
  induction l with
  | nil => rfl
  | cons a as ih =>
    rw [List.flatMap_cons, h a (by simp), List.nil_append]
    exact ih (fun x hx => h x (by simp [hx]))

/-- On a series whose highs and lows are both strictly increasing from candle
to candle, no index is a swing point (for any `lookback ≥ 1` the immediate
right neighbour already defeats the high test and the immediate left
neighbour the low test), so `identifySwingPoints` returns no swings at all. -/
theorem swings_nil_of_strict_ramp (candles : List Candle) (lookback : ℕ)
    (hlb : 1 ≤ lookback)
    (hmono : List.Chain' (fun a b => a.high < b.high ∧ a.low < b.low) candles) :
    identifySwingPoints candles lookback = [] := by
  unfold identifySwingPoints
  apply flatMap_nil_of_forall_nil
  intro i hi
  rw [List.mem_range'_1] at hi
  have hi1 : lookback ≤ i := hi.1
  have hi2 : i + 1 < candles.length := by omega
  have hstep : ∀ j : ℕ, j + 1 < candles.length →
      ((cAt candles j).high < (cAt candles (j + 1)).high ∧
       (cAt candles j).low < (cAt candles (j + 1)).low) := by
    intro j hj
    have h := List.chain'_iff_get.1 hmono j (by omega)
    simp only [List.get_eq_getElem] at h
    unfold cAt
    rw [List.getD_eq_getElem _ _ (by omega : j < candles.length),
      List.getD_eq_getElem _ _ (by omega : j + 1 < candles.length)]
    exact h
  have hhigh : isSwingHigh candles lookback i = false := by
    apply Bool.eq_false_iff.mpr
    intro hall
    have h1 := List.all_eq_true.1 hall 1 (by rw [List.mem_range'_1]; omega)
    simp only [Bool.and_eq_true, decide_eq_true_eq] at h1
    exact absurd h1.2 (lt_asymm (hstep i hi2).1)
  have hlow : isSwingLow candles lookback i = false := by
    apply Bool.eq_false_iff.mpr
    intro hall
    have h1 := List.all_eq_true.1 hall 1 (by rw [List.mem_range'_1]; omega)
    simp only [Bool.and_eq_true, decide_eq_true_eq] at h1
    have hl := (hstep (i - 1) (by omega)).2
    have hieq : i - 1 + 1 = i := by omega
    rw [hieq] at hl
    exact absurd h1.1 (lt_asymm hl)
  unfold swingEntriesAt
  rw [hhigh, hlow]
  rfl

/-- Counterexample to C2: on the synthetic strictly uptrending 60-candle
series with no pullbacks, the trend classifier over lookback-5 swing points
reports `ranging`, not `uptrend` — a monotone ramp has no strict local
extrema, so there are no swing points at all. -/
theorem trend_uptrend_counterexample :
    (identifyTrendStructure cex60 (identifySwingPoints cex60 5)).struct = "ranging" ∧
    (identifyTrendStructure cex60 (identifySwingPoints cex60 5)).struct ≠ "uptrend" := by
  have h : identifySwingPoints cex60 5 = [] := by
    apply swings_nil_of_strict_ramp cex60 5 (by decide)
    norm_num [cex60, List.chain'_cons, List.range_succ]
  rw [h]
  exact ⟨rfl, by decide⟩

/-- C2 (amended): for any candle series whose candles all shift strictly
upward (highs and lows strictly increasing, as in the synthetic no-pullback
uptrend scenario) and any `lookback ≥ 1`, the swing list is empty and the
resulting structure trend is `ranging`, not `uptrend`. -/
theorem uptrend_ramp_yields_ranging (candles : List Candle) (lookback : ℕ)
    (hlb : 1 ≤ lookback)
    (hmono : List.Chain' (fun a b => a.high < b.high ∧ a.low < b.low) candles) :
    identifySwingPoints candles lookback = [] ∧
    (identifyTrendStructure candles (identifySwingPoints candles lookback)).struct =
      "ranging" := by
  have h := swings_nil_of_strict_ramp candles lookback hlb hmono
  rw [h]
  exact ⟨rfl, rfl⟩

/-- Witness for `uptrend_ramp_yields_ranging` at the concrete synthetic
series. -/
theorem uptrend_ramp_yields_ranging_witness :
    (1 ≤ 5 ∧
      List.Chain' (fun a b => a.high < b.high ∧ a.low < b.low) cex60) ∧
    identifySwingPoints cex60 5 = [] :=
  ⟨⟨by decide, by norm_num [cex60, List.chain'_cons, List.range_succ]⟩,
    (uptrend_ramp_yields_ranging cex60 5 (by decide)
      (by norm_num [cex60, List.chain'_cons, List.range_succ])).1⟩

/-- Filtering a `flatMap` whose blocks all filter to nothing yields nothing. -/
theorem filter_flatMap_nil {α β : Type} (l : List α) (f : α → List β) (q : β → Bool)
    (h0 : ∀ x ∈ l, (f x).filter q = []) : (l.flatMap f).filter q = [] := by
  induction l with
  | nil => rfl
  | cons a as ih =>
    rw [List.flatMap_cons, List.filter_append, h0 a (by simp), List.nil_append]
    exact ih (fun x hx => h0 x (by simp [hx]))

/-- Filtering a `flatMap` over a duplicate-free index list in which only the
block of `m` can survive the filter yields exactly that block's filtrate. -/
theorem filter_flatMap_single {α β : Type} (l : List α) (f : α → List β) (q : β → Bool)
    (m : α) (hnd : l.Nodup) (hm : m ∈ l)
    (h0 : ∀ x ∈ l, x ≠ m → (f x).filter q = []) :
    (l.flatMap f).filter q = (f m).filter q := by
  induction l with
  | nil => cases hm
  | cons a as ih =>
    rw [List.flatMap_cons, List.filter_append]
    rcases List.mem_cons.1 hm with rfl | hmem
    · rw [filter_flatMap_nil as f q
        (fun x hx => h0 x (by simp [hx])
          (fun hxm => absurd (hxm ▸ hx) (List.nodup_cons.1 hnd).1)),
        List.append_nil]
    · have hne : a ≠ m := fun h => absurd (h ▸ hmem) (List.nodup_cons.1 hnd).1
      rw [h0 a (by simp) hne, List.nil_append]
      exact ih (List.nodup_cons.1 hnd).2 hmem (fun x hx hxm => h0 x (by simp [hx]) hxm)

/-- Every swing pushed at outer-loop index `i` records index `i`. -/
theorem swingEntriesAt_index (candles : List Candle) (lookback i : ℕ) :
    ∀ s ∈ swingEntriesAt candles lookback i, s.index = i := by
  intro s hs
  unfold swingEntriesAt at hs
  rcases List.mem_append.1 hs with h | h
  · split at h
    · rw [List.mem_singleton.1 h]
    · cases h
  · split at h
    · rw [List.mem_singleton.1 h]
    · cases h

/-- C3 (amended): a single global maximum, strictly above every other high and
with at least `lookback` candles on each side, is detected as exactly one high
swing at its index; and an exact tie of highs at any offset `j ∈ [1, lookback]`
(the flat-plateau situation at that range) disqualifies the tied index — it is
never flagged as a high swing.  (A tie farther than `lookback` away does not
disqualify, which is what fails in the original claim.) -/
theorem swing_detection_amended (candles : List Candle) (lookback : ℕ) :
    (∀ m : ℕ, lookback ≤ m → m + lookback < candles.length →
      (∀ i : ℕ, i < candles.length → i ≠ m →
        (cAt candles i).high < (cAt candles m).high) →
      ((identifySwingPoints candles lookback).filter
        (fun s => s.type == "high" && s.index == m)).length = 1) ∧
    (∀ i j : ℕ, 1 ≤ j → j ≤ lookback →
      ((cAt candles (i - j)).high = (cAt candles i).high ∨
        (cAt candles (i + j)).high = (cAt candles i).high) →
      ((identifySwingPoints candles lookback).filter
        (fun s => s.type == "high" && s.index == i)).length = 0) := by
  constructor
  · intro m hm1 hm2 hmax
    have h0 : ∀ x ∈ List.range' lookback (candles.length - lookback - lookback),
        x ≠ m → (swingEntriesAt candles lookback x).filter
          (fun s => s.type == "high" && s.index == m) = [] := by
      intro x _ hxm
      rw [List.filter_eq_nil_iff]
      intro s hs
      have hsx := swingEntriesAt_index candles lookback x s hs
      simp [hsx, hxm]
    unfold identifySwingPoints
    rw [filter_flatMap_single _ _ _ m (List.nodup_range' _ _)
      (by rw [List.mem_range'_1]; omega) h0]
    have hhigh : isSwingHigh candles lookback m = true := by
      rw [isSwingHigh, List.all_eq_true]
      intro j hj
      rw [List.mem_range'_1] at hj
      have hl : (cAt candles (m - j)).high < (cAt candles m).high :=
        hmax (m - j) (by omega) (by omega)
      have hr : (cAt candles (m + j)).high < (cAt candles m).high :=
        hmax (m + j) (by omega) (by omega)
      simp [hl, hr]
    unfold swingEntriesAt
    rw [hhigh, if_pos rfl]
    split <;> simp
  · intro i j hj1 hj2 htie
    have hhigh : isSwingHigh candles lookback i = false := by
      apply Bool.eq_false_iff.mpr
      intro hall
      have h1 := List.all_eq_true.1 hall j (by rw [List.mem_range'_1]; omega)
      simp only [Bool.and_eq_true, decide_eq_true_eq] at h1
      rcases htie with h | h
      · exact absurd h1.1 (by rw [h]; exact lt_irrefl _)
      · exact absurd h1.2 (by rw [h]; exact lt_irrefl _)
    have h0 : ∀ x ∈ List.range' lookback (candles.length - lookback - lookback),
        (swingEntriesAt candles lookback x).filter
          (fun s => s.type == "high" && s.index == i) = [] := by
      intro x _
      by_cases hxi : x = i
      · subst hxi
        rw [List.filter_eq_nil_iff]
        intro s hs
        unfold swingEntriesAt at hs
        rw [hhigh] at hs
        simp only [Bool.false_eq_true, if_false, List.nil_append] at hs
        split at hs
        · rw [List.mem_singleton.1 hs]
          simp
        · cases hs
      · rw [List.filter_eq_nil_iff]
        intro s hs
        have hsx := swingEntriesAt_index candles lookback x s hs
        simp [hsx, hxi]
    unfold identifySwingPoints
    rw [filter_flatMap_nil _ _ _ h0]
    rfl

/-- Counterexample to C3: in `cexPlateau` the maximal high value 10 occurs at
two candles, yet a candle attaining it (index 7, whose equal twin is farther
than the lookback away) IS flagged as a high swing — the claim that no candle
attaining a multiply-attained maximum is ever flagged is false. -/
theorem swing_plateau_counterexample :
    (cexPlateau.map (fun c => c.high)).count 10 = 2 ∧
    (cexPlateau.map (fun c => c.high)).all (fun h => decide (h ≤ 10)) = true ∧
    ((identifySwingPoints cexPlateau 5).filter
      (fun s => s.type == "high" && decide (s.price = 10))).length = 1 := by
  refine ⟨by decide, by decide, by decide⟩

/-- Witness for `swing_detection_amended` at the concrete series `wC3`:
the unique global maximum at index 5 yields exactly one high swing there, and
the exact tie at offset 1 disqualifies index 2. -/
theorem swing_detection_amended_witness :
    ((∀ i : ℕ, i < wC3.length → i ≠ 5 → (cAt wC3 i).high < (cAt wC3 5).high) ∧
      (cAt wC3 (2 - 1)).high = (cAt wC3 2).high) ∧
    ((identifySwingPoints wC3 5).filter
      (fun s => s.type == "high" && s.index == 5)).length = 1 ∧
    ((identifySwingPoints wC3 5).filter
      (fun s => s.type == "high" && s.index == 2)).length = 0 :=
  ⟨⟨by decide, by decide⟩,
    (swing_detection_amended wC3 5).1 5 (by decide) (by decide) (by decide),
    (swing_detection_amended wC3 5).2 2 1 (by decide) (by decide) (Or.inl (by decide))⟩

/-- One merge step of the clustering preserves the cluster invariant. -/
theorem insertIntoClusters_inv (tol : ℚ) (L : List ℚ) (acc : List Cluster) (p : ℚ)
    (h : ∀ c ∈ acc, ClusterInv L c) :
    ∀ c ∈ insertIntoClusters tol acc p, ClusterInv (L ++ [p]) c := by
  induction acc with
  | nil =>
    intro c hc
    simp only [insertIntoClusters, List.mem_singleton] at hc
    subst hc
    exact ⟨[p], by simp, List.Sublist.append (List.nil_sublist L) (List.Sublist.refl [p]),
      rfl, by simp⟩
  | cons c0 rest ih =>
    intro c hc
    rw [insertIntoClusters] at hc
    split at hc
    · rcases List.mem_cons.1 hc with rfl | hmem
      · obtain ⟨ps, hne, hsub, htou, hpr⟩ := h c0 (by simp)
        refine ⟨ps ++ [p], by simp, List.Sublist.append hsub (List.Sublist.refl [p]), ?_, ?_⟩
        · simp [htou]
        · have hn : ((ps.length : ℚ)) ≠ 0 := by
            exact_mod_cast (List.length_pos.2 hne).ne'
          show (c0.price * c0.touches + p) / (c0.touches + 1) = _
          rw [hpr, htou, div_mul_cancel₀ _ hn]
          simp
      · obtain ⟨ps, hne, hsub, htou, hpr⟩ := h c (by simp [hmem])
        exact ⟨ps, hne, hsub.trans (List.sublist_append_left L [p]), htou, hpr⟩
    · rcases List.mem_cons.1 hc with rfl | hmem
      · obtain ⟨ps, hne, hsub, htou, hpr⟩ := h c (by simp)
        exact ⟨ps, hne, hsub.trans (List.sublist_append_left L [p]), htou, hpr⟩
      · exact ih (fun c' hc' => h c' (by simp [hc'])) c hmem

/-- Every cluster produced by the single-pass clustering satisfies the
cluster invariant with respect to the full price list. -/
theorem buildClusters_inv (tol : ℚ) (prices : List ℚ) :
    ∀ c ∈ buildClusters prices tol, ClusterInv prices c := by
  suffices h : ∀ (ps : List ℚ) (acc : List Cluster) (L : List ℚ),
      (∀ c ∈ acc, ClusterInv L c) →
      ∀ c ∈ ps.foldl (insertIntoClusters tol) acc, ClusterInv (L ++ ps) c by
    have h0 := h prices [] [] (by simp)
    simpa [buildClusters] using h0
  intro ps
  induction ps with
  | nil =>
    intro acc L h
    simpa using h
  | cons p ps ih =>
    intro acc L h
    rw [List.foldl_cons]
    have h' := insertIntoClusters_inv tol L acc p h
    have h2 := ih (insertIntoClusters tol acc p) (L ++ [p]) h'
    simpa using h2

/-- C6: for any swing list, current price and positive ATR, the support and
resistance levels returned are at most 5, each comes from a cluster with at
least 2 touches, each is classified `resistance` exactly when its centroid
exceeds the current price and `support` otherwise, each centroid is the mean
of the (non-empty, time-ordered) subsequence of swing prices merged into its
cluster, each `distance` is the absolute distance from the current price
(and `distanceATR` that distance in ATR units), and the list is sorted
ascending by distance. -/
theorem support_resistance_spec (swings : List Swing) (currentPrice atr : ℚ)
    (hatr : 0 < atr) :
    (identifySupportResistance swings currentPrice atr).length ≤ 5 ∧
    List.Pairwise levelDistLE (identifySupportResistance swings currentPrice atr) ∧
    ∀ l ∈ identifySupportResistance swings currentPrice atr,
      2 ≤ l.strength ∧
      (l.type = "resistance" ↔ currentPrice < l.price) ∧
      (l.type = "support" ↔ ¬currentPrice < l.price) ∧
      l.distance = |currentPrice - l.price| ∧
      l.distanceATR = |currentPrice - l.price| / atr ∧
      ∃ ps : List ℚ, ps ≠ [] ∧ List.Sublist ps (swings.map (fun s => s.price)) ∧
        l.strength = ps.length ∧ l.price = ps.sum / ps.length := by
  have hrepr : identifySupportResistance swings currentPrice atr =
      (List.insertionSort levelDistLE
        (((buildClusters (swings.map (fun s => s.price)) (atr * (1 / 2))).filter
          (fun c => decide (2 ≤ c.touches))).map (fun c =>
            ({ type := if currentPrice < c.price then "resistance" else "support",
               price := c.price, strength := c.touches,
               distance := |currentPrice - c.price|,
               distanceATR := |currentPrice - c.price| / atr } : Level)))).take 5 := rfl
  refine ⟨?_, ?_, ?_⟩
  · rw [hrepr]
    exact List.length_take_le 5 _
  · rw [hrepr]
    exact List.Pairwise.sublist (List.take_sublist 5 _)
      (List.sorted_insertionSort levelDistLE _)
  · intro l hl
    rw [hrepr] at hl
    have hl2 := (List.perm_insertionSort levelDistLE _).mem_iff.1 (List.mem_of_mem_take hl)
    obtain ⟨c, hcf, rfl⟩ := List.mem_map.1 hl2
    obtain ⟨hc, h2⟩ := List.mem_filter.1 hcf
    have h2' : 2 ≤ c.touches := of_decide_eq_true h2
    obtain ⟨ps, hne, hsub, htou, hpr⟩ := buildClusters_inv (atr * (1 / 2))
      (swings.map (fun s => s.price)) c hc
    dsimp only
    refine ⟨h2', ?_, ?_, rfl, rfl, ps, hne, hsub, htou, hpr⟩
    · split_ifs with h
      · exact iff_of_true rfl h
      · exact iff_of_false (by decide) h
    · split_ifs with h
      · exact iff_of_false (by decide) (fun hn => hn h)
      · exact iff_of_true rfl h

/-- Witness for `support_resistance_spec` with `wSwings`, current price 9 and
ATR 1. -/
theorem support_resistance_spec_witness :
    (0 : ℚ) < 1 ∧ (identifySupportResistance wSwings 9 1).length ≤ 5 :=
  ⟨by decide, (support_resistance_spec wSwings 9 1 (by decide)).1⟩
